import Mathlib

/-!
Shallow embedding of the gNMI in-memory cache and read-dispatch layer of
gnmic (file `pkg/cache/gnmi_cache.go` of the repository slice):
the ingest path (`gnmiCache.Write`), the registry snapshot (`getCaches`),
the three read modes (`handleSingleQuery`, `handleSampledQuery`,
`handleOnChangeQuery`), the dispatcher (`subscribe`) and the synchronous
aggregator (`read`).

Modelling conventions:
* protobuf messages become plain structures; a protobuf getter on a nil
  message returns the zero value, so every field carries a default;
* the external `openconfig/gnmi` store (`ocCache.Cache`) is represented by
  the data the core observes from it: the set of registered targets and an
  oracle mapping each (target, completed-path) query to its outcome
  (a list of stored notifications, or an error).  Store writes performed by
  the core (`GnmiUpdate`) are recorded as explicit events;
* machine integers (timestamps, durations in nanoseconds) become `Int`;
* Go maps become association lists with key-replacing insertion;
* channel emissions become lists of emitted items, per-goroutine sequences
  concatenated in registry order (the Go fan-out is unordered, so theorems
  about emission only use order inside one goroutine, or membership);
* `path.CompletePath(p, nil)` (external): with a nil second argument the
  upstream function never returns an error, but the caller keeps an error
  branch, so the model keeps the fallible result type with a dead error
  constructor.
-/

namespace GnmicCache

/-- Opaque encoded value carried by a `gnmi.TypedValue`; the core only ever
compares values for equality (`proto.Equal`) and tests them against nil. -/
abbrev TypedValue := Nat

/-- Model of `gnmi.Path` as the core observes it: a target and the element names.
Keys are folded into the element strings and `origin` is omitted: the core
never reads them. -/
structure GPath where
  target : String := ""
  elem : List String := []
deriving DecidableEq

/-- Model of `gnmi.Update`: a path plus an optional value (`Val == nil` in Go is
`none` here). -/
structure Update where
  path : GPath := {}
  val : Option TypedValue := none
deriving DecidableEq

/-- Model of `gnmi.Notification`. -/
structure Notification where
  timestamp : Int := 0
  prefixPath : GPath := {}
  update : List Update := []
  delete : List GPath := []
  atomic : Bool := false
deriving DecidableEq

/-- The `gnmi.SubscribeResponse` oneof as `Write` switches on it: an
`Update` response carrying a notification, or any other response kind. -/
inductive SubscribeResponse where
  | update (rsp : Notification)
  | other
deriving DecidableEq

/-- The cache package's channel item type (`cache.Notification`): the
subscription name, and either a notification or an error. -/
structure NotificationItem where
  name : String
  notif : Option Notification := none
  err : Option String := none
deriving DecidableEq

/-- Outcome of a store query (`ocCache.Cache.Query`): every matching leaf,
or an error. -/
inductive QueryResult where
  | ok (ns : List Notification)
  | err (e : String)
deriving DecidableEq

/-- Outcome of `path.CompletePath`. -/
inductive PathResult where
  | ok (fp : List String)
  | err (e : String)
deriving DecidableEq

/-- Association-list lookup, the model of a Go map read. -/
def lookupA {α β : Type} [DecidableEq α] (k : α) : List (α × β) → Option β
  | [] => none
  | (k', v) :: rest => if k' = k then some v else lookupA k rest

/-- Association-list key-replacing insertion, the model of a Go map write. -/
def insertA {α β : Type} [DecidableEq α] : List (α × β) → α → β → List (α × β)
  | [], k, v => [(k, v)]
  | (k', v') :: rest, k, v =>
    if k' = k then (k, v) :: rest else (k', v') :: insertA rest k v

/-- Model of `subCache`: one per-subscription store paired with one change matcher.
`targets` is the store's registered target set; `stored` records the
notifications handed to `GnmiUpdate`; `queryRes` is the external store's
query oracle. -/
structure SubCache where
  targets : List String := []
  stored : List Notification := []
  queryRes : List ((String × List String) × QueryResult) := []
deriving DecidableEq

/-- Model of `gnmiCache`: the registry mapping subscription name to `subCache`,
plus the configured expiration window (nanoseconds) and the debug flag. -/
structure GnmiCache where
  caches : List (String × SubCache) := []
  expiration : Int := 0
  debug : Bool := false
deriving DecidableEq

/-- Result of one `Write` call: the registry afterwards and the sequence of
store-write attempts (subscription name, notification handed to
`GnmiUpdate`) it performed. -/
structure WriteResult where
  cache : GnmiCache
  storeWrites : List (String × Notification)
deriving DecidableEq

/-- Model of `ReadMode`. -/
inductive ReadMode where
  | once
  | streamOnChange
  | streamSample
deriving DecidableEq

/-- The redundancy-suppression state `ro.lastSent`:
fully-qualified xpath ↦ last sent value. -/
abbrev SuppressState := List (String × Option TypedValue)

/-- Model of `ReadOpts`, as the dispatcher consumes it. -/
structure ReadOpts where
  subscription : String := ""
  target : String := ""
  paths : List GPath := []
  mode : ReadMode := .streamOnChange
  sampleInterval : Int := 0
  heartbeatInterval : Int := 0
  suppressRedundant : Bool := false
  updatesOnly : Bool := false
  overrideTS : Bool := false
  lastSent : SuppressState := []
deriving DecidableEq

/-- Fresh `subCache` as `Write` creates it: `ocCache.New(nil)` followed by
`Add(target)`. -/
def newSubCache (target : String) : SubCache :=
  { targets := [target], stored := [], queryRes := [] }

/-- Model of the `sCache.c.HasTarget` / `Add` sequence in `Write`: register the target
if not yet present (idempotent add). -/
def addTarget (c : SubCache) (t : String) : SubCache :=
  if c.targets.contains t then c else { c with targets := c.targets ++ [t] }

/-- Model of `gnmiCache.Write` (lines 97-161): validates the incoming
`SubscribeResponse`, creates the sub-cache and registers the target under
the lock, strips nil-valued updates, drops empty notifications and
otherwise hands exactly one notification to the store. -/
def Write (gc : GnmiCache) (measName : String) (m : SubscribeResponse) : WriteResult :=
  match m with
  | .other => ⟨gc, []⟩
  | .update rsp =>
    if rsp.prefixPath.target = "" then ⟨gc, []⟩
    else if rsp.prefixPath.elem = [] ∧ ∃ u ∈ rsp.update, u.path.elem = [] then ⟨gc, []⟩
    else
      let sCache :=
        match lookupA measName gc.caches with
        | some c => addTarget c rsp.prefixPath.target
        | none => newSubCache rsp.prefixPath.target
      let notif : Notification :=
        { timestamp := rsp.timestamp
          prefixPath := rsp.prefixPath
          update := rsp.update.filter (fun u => u.val.isSome)
          delete := rsp.delete
          atomic := rsp.atomic }
      if notif.update = [] ∧ notif.delete = [] then
        { cache := { gc with caches := insertA gc.caches measName sCache }
          storeWrites := [] }
      else
        let sCache' := { sCache with stored := sCache.stored ++ [notif] }
        { cache := { gc with caches := insertA gc.caches measName sCache' }
          storeWrites := [(measName, notif)] }

/-- Model of `gnmiCache.getCaches` (lines 448-466): snapshot of the registry, whole
when called with no names or a single empty name, restricted otherwise. -/
def getCaches (gc : GnmiCache) (names : List String) : List (String × SubCache) :=
  if names = [] ∨ names = [""] then gc.caches
  else
    names.foldl
      (fun acc n =>
        match lookupA n gc.caches with
        | some c => insertA acc n c
        | none => acc)
      []

/-- Model of `gpath.GnmiPathToXPath(p, true)` (external helper): the element names
joined by `/`. -/
def gnmiPathToXPath (p : GPath) : String :=
  String.intercalate "/" p.elem

/-- Model of `path.CompletePath(p, nil)` (external): the string form of the path.
With a nil second argument the upstream function has no failing branch;
the `err` constructor of the result type exists because every caller still
checks for an error. -/
def completePath (p : GPath) : PathResult :=
  .ok p.elem

/-- Model of `sCache.c.Query(target, fp, visitor)` (external store): the oracle's
outcome for the completed path; a key absent from the oracle is a query
that visits no leaf. -/
def queryStore (c : SubCache) (target : String) (fp : List String) : QueryResult :=
  match lookupA (target, fp) c.queryRes with
  | some r => r
  | none => .ok []

/-- One iteration of the suppress-redundant loop body (lines 253-268):
look up the key in `lastSent`; emit (and record the value) unless the last
sent value for the key equals the new one (`proto.Equal`). Returns the new
state and whether the update is emitted. -/
def suppressStep (st : SuppressState) (k : String) (v : Option TypedValue) :
    SuppressState × Bool :=
  if lookupA k st = some v then (st, false) else (insertA st k v, true)

/-- The suppress-redundant loop over a sequence of (key, value) pairs,
returning the final state and the per-position emission flags. -/
def suppressRun (st : SuppressState) :
    List (String × Option TypedValue) → SuppressState × List Bool
  | [] => (st, [])
  | kv :: rest =>
    let r := suppressStep st kv.1 kv.2
    let rr := suppressRun r.1 rest
    (rr.1, r.2 :: rr.2)

/-- The values actually sent for key `k` (in order) when the
suppress-redundant loop runs over `us` from state `st`. -/
def emittedVals (st : SuppressState) :
    List (String × Option TypedValue) → String → List (Option TypedValue)
  | [], _ => []
  | kv :: rest, k =>
    let r := suppressStep st kv.1 kv.2
    if kv.1 = k ∧ r.2 = true then kv.2 :: emittedVals r.1 rest k
    else emittedVals r.1 rest k

/-- The fully-qualified suppression key of one update inside notification
`gl` (line 252): `strings.Join([]string{target, prefix, p}, "/")`. -/
def updKey (gl : Notification) (upd : Update) : String :=
  String.intercalate "/"
    [gl.prefixPath.target, gnmiPathToXPath gl.prefixPath, gnmiPathToXPath upd.path]

/-- The suppress-redundant loop over the updates of notification `gl`
(lines 250-269): each update emitted by `suppressStep` becomes its own
single-update notification. -/
def processUpdates (name : String) (gl : Notification) (st : SuppressState) :
    List Update → SuppressState × List NotificationItem
  | [] => (st, [])
  | upd :: rest =>
    let r := suppressStep st (updKey gl upd) upd.val
    let tail := processUpdates name gl r.1 rest
    if r.2 then
      (tail.1,
        { name := name
          notif := some
            { timestamp := gl.timestamp, prefixPath := gl.prefixPath
              update := [upd], delete := [], atomic := false } } :: tail.2)
    else tail

/-- Lines 232-235: `proto.Clone` the notification and override the clone's
timestamp with the current time.  Returns (value left in the store's leaf,
value used for emission): because the code clones before mutating, the
leaf keeps the original notification. -/
def overrideClone (gl : Notification) (now : Int) : Notification × Notification :=
  (gl, { gl with timestamp := now })

/-- The `handleSingleQuery` visitor body for one cached notification
(lines 230-282): optional timestamp override, then either direct emission
or the suppress-redundant decomposition followed by the deletion
notification (emitted whenever the cached notification carries
deletions). -/
def processLeaf (ro : ReadOpts) (name : String) (now : Int) (st : SuppressState)
    (gl0 : Notification) : SuppressState × List NotificationItem :=
  let gl := if ro.overrideTS then (overrideClone gl0 now).2 else gl0
  if ro.suppressRedundant = false then (st, [{ name := name, notif := some gl }])
  else
    let r := processUpdates name gl st gl.update
    if gl.delete = [] then r
    else
      (r.1, r.2 ++
        [{ name := name
           notif := some
             { timestamp := gl.timestamp, prefixPath := gl.prefixPath
               update := [], delete := gl.delete, atomic := false } }])

/-- The visitor applied to every notification returned by one store
query, threading the suppression state. -/
def processLeaves (ro : ReadOpts) (name : String) (now : Int) (st : SuppressState) :
    List Notification → SuppressState × List NotificationItem
  | [] => (st, [])
  | gl :: rest =>
    let r := processLeaf ro name now st gl
    let r2 := processLeaves ro name now r.1 rest
    (r2.1, r.2 ++ r2.2)

/-- The per-subscription goroutine body of `handleSingleQuery`
(lines 218-290): iterate the requested paths; a path-completion failure or
a store query error emits one error item tagged with the subscription name
and returns from the goroutine, dropping the remaining paths. -/
def processSubPathsOnce (ro : ReadOpts) (now : Int) (name : String) (c : SubCache)
    (st : SuppressState) : List GPath → SuppressState × List NotificationItem
  | [] => (st, [])
  | p :: rest =>
    match completePath p with
    | .err e => (st, [{ name := name, err := some e }])
    | .ok fp =>
      match queryStore c ro.target fp with
      | .err e => (st, [{ name := name, err := some e }])
      | .ok notifs =>
        let r := processLeaves ro name now st notifs
        let r2 := processSubPathsOnce ro now name c r.1 rest
        (r2.1, r.2 ++ r2.2)

/-- The fan-out of `handleSingleQuery` over the snapshot of sub-caches
(lines 209-293): a cache without the requested target contributes nothing;
the suppression state is shared across the goroutines (one interleaving,
registry order). -/
def handleSingleQueryCaches (ro : ReadOpts) (now : Int) (st : SuppressState) :
    List (String × SubCache) → SuppressState × List NotificationItem
  | [] => (st, [])
  | nc :: rest =>
    let r :=
      if nc.2.targets.contains ro.target then
        processSubPathsOnce ro now nc.1 nc.2 st ro.paths
      else (st, [])
    let r2 := handleSingleQueryCaches ro now r.1 rest
    (r2.1, r.2 ++ r2.2)

/-- Model of `gnmiCache.handleSingleQuery` (lines 196-294), also returning the
final suppression state (held in `ro.lastSent` by the Go code). -/
def handleSingleQueryS (gc : GnmiCache) (ro : ReadOpts) (now : Int) :
    SuppressState × List NotificationItem :=
  handleSingleQueryCaches ro now ro.lastSent (getCaches gc [ro.subscription])

/-- The emitted items of one `handleSingleQuery` pass. -/
def handleSingleQuery (gc : GnmiCache) (ro : ReadOpts) (now : Int) :
    List NotificationItem :=
  (handleSingleQueryS gc ro now).2

/-- The ticker loop of `handleSampledQuery` (lines 303-311), unrolled for
the `k` ticks observed before context cancellation; `ro.lastSent` persists
across passes because every pass shares the one `ReadOpts` value. -/
def sampledLoop (gc : GnmiCache) (ro : ReadOpts) (now : Int) (st : SuppressState) :
    Nat → SuppressState × List NotificationItem
  | 0 => (st, [])
  | Nat.succ k =>
    let r := handleSingleQueryS gc { ro with lastSent := st } now
    let r2 := sampledLoop gc ro now r.1 k
    (r2.1, r.2 ++ r2.2)

/-- Model of `gnmiCache.handleSampledQuery` (lines 296-312) with `k` ticks before
cancellation: an immediate pass unless `updatesOnly`, then one pass per
tick. -/
def handleSampledQueryS (gc : GnmiCache) (ro : ReadOpts) (now : Int) (k : Nat) :
    SuppressState × List NotificationItem :=
  let r0 :=
    if ro.updatesOnly then (ro.lastSent, [])
    else handleSingleQueryS gc ro now
  let rk := sampledLoop gc ro now r0.1 k
  (rk.1, r0.2 ++ rk.2)

/-- Model of `gnmiCache.subscribe` (lines 183-194) as the transformation it applies
to the read options before handing them to the mode handler: on-change
mode forces `SuppressRedundant` off, the other modes pass the options
through unchanged. -/
def subscribeDispatch (ro : ReadOpts) : ReadOpts :=
  match ro.mode with
  | .streamOnChange => { ro with suppressRedundant := false }
  | _ => ro

/-- The nested `ReadOpts` built for the on-change heartbeat
(lines 366-373): a Sample-mode read whose sample interval is the heartbeat
interval; fields absent from the Go struct literal are zero. -/
def heartbeatOpts (ro : ReadOpts) : ReadOpts :=
  { subscription := ro.subscription
    target := ro.target
    paths := ro.paths
    mode := .streamSample
    sampleInterval := ro.heartbeatInterval
    heartbeatInterval := 0
    suppressRedundant := false
    updatesOnly := false
    overrideTS := ro.overrideTS
    lastSent := [] }

/-- Events observable from one per-subscription goroutine of
`handleOnChangeQuery`. -/
inductive OCEvent where
  | emitted (item : NotificationItem)
  | registered (name : String) (fp : List String)
  | heartbeatStart (name : String)
  | heartbeatEnd (name : String)
deriving DecidableEq

/-- The per-subscription goroutine body of `handleOnChangeQuery`
(lines 322-379) as the sequential trace of its events: for each path,
complete the path (error item and return on failure), dump the currently
cached values unless `updatesOnly` (error item and return on a query
error), register the change subscription for target-plus-path, and — when
a heartbeat interval is set — run the nested sampled query to completion
(it only returns at context cancellation, after `ticks` ticks) before the
loop reaches the next path. -/
def onChangeSubTrace (gc : GnmiCache) (ro : ReadOpts) (now : Int) (ticks : Nat)
    (name : String) (c : SubCache) : List GPath → List OCEvent
  | [] => []
  | p :: rest =>
    match completePath p with
    | .err e => [.emitted { name := name, err := some e }]
    | .ok cp =>
      match (if ro.updatesOnly then QueryResult.ok [] else queryStore c ro.target cp) with
      | .err e => [.emitted { name := name, err := some e }]
      | .ok notifs =>
        notifs.map (fun gl => .emitted { name := name, notif := some gl }) ++
        [.registered name (ro.target :: cp)] ++
        (if ro.heartbeatInterval > 0 then
          .heartbeatStart name ::
          ((handleSampledQueryS gc (heartbeatOpts ro) now ticks).2.map .emitted) ++
          [.heartbeatEnd name]
        else []) ++
        onChangeSubTrace gc ro now ticks name c rest

/-- The per-cache collection step of `gnmiCache.read` (lines 409-439):
complete the path (silently skip the cache on failure), query the store
(silently skip on error), and keep each notification unless the
expiration window is positive and the notification is older than the
read's start minus the window (lines 424-427). -/
def readCacheNotifs (gc : GnmiCache) (target : String) (p : GPath) (now : Int)
    (name : String) (c : SubCache) : List (String × Notification) :=
  match completePath p with
  | .err _ => []
  | .ok cp =>
    match queryStore c target cp with
    | .err _ => []
    | .ok notifs =>
      (notifs.filter
        (fun n => ¬(gc.expiration > 0 ∧ n.timestamp < now - gc.expiration))).map
        (fun n => (name, n))

/-- Variant of `readCacheNotifs` without the expiration filter, for stating which
notifications the filter drops. -/
def readCacheNotifsAll (target : String) (p : GPath)
    (name : String) (c : SubCache) : List (String × Notification) :=
  match completePath p with
  | .err _ => []
  | .ok cp =>
    match queryStore c target cp with
    | .err _ => []
    | .ok notifs => notifs.map (fun n => (name, n))

/-- The fan-out of `read` over the registry snapshot, collected in
registry order. -/
def readCaches (gc : GnmiCache) (target : String) (p : GPath) (now : Int) :
    List (String × SubCache) → List (String × Notification)
  | [] => []
  | nc :: rest =>
    readCacheNotifs gc target p now nc.1 nc.2 ++ readCaches gc target p now rest

/-- Variant of `readCaches` without the expiration filter. -/
def readCachesAll (target : String) (p : GPath) :
    List (String × SubCache) → List (String × Notification)
  | [] => []
  | nc :: rest =>
    readCacheNotifsAll target p nc.1 nc.2 ++ readCachesAll target p rest

/-- Model of `gnmiCache.read` (lines 386-446): the synchronous read-everything
path, as the sequence of (subscription name, notification) pairs the
collector goroutine appends. -/
def read (gc : GnmiCache) (sub target : String) (p : GPath) (now : Int) :
    List (String × Notification) :=
  let sub := if sub = "*" then "" else sub
  readCaches gc target p now (getCaches gc [sub])

/-- Variant of `read` without the expiration filter. -/
def readAllPairs (gc : GnmiCache) (sub target : String) (p : GPath) :
    List (String × Notification) :=
  let sub := if sub = "*" then "" else sub
  readCachesAll target p (getCaches gc [sub])

/-- First-`some` choice on options (used to state the suppression-state
invariant). -/
def orD {α : Type} (a b : Option α) : Option α :=
  match a with
  | some x => some x
  | none => b

/-- The last element of a list of sent values, if any. -/
def lastVal : List (Option TypedValue) → Option (Option TypedValue)
  | [] => none
  | v :: rest => orD (lastVal rest) (some v)

/-- The (key, value) projection of a notification's updates, in the order
the suppress-redundant loop visits them. -/
def updKeys (gl : Notification) (us : List Update) : List (String × Option TypedValue) :=
  us.map (fun u => (updKey gl u, u.val))

/-- The single-update notification item the suppress-redundant loop emits
for one update (lines 257-264). -/
def updateItemOf (name : String) (gl : Notification) (upd : Update) : NotificationItem :=
  { name := name
    notif := some
      { timestamp := gl.timestamp, prefixPath := gl.prefixPath
        update := [upd], delete := [], atomic := false } }

/-- The deletion-only notification item emitted after the update loop
(lines 271-280). -/
def deleteItemOf (name : String) (gl : Notification) : NotificationItem :=
  { name := name
    notif := some
      { timestamp := gl.timestamp, prefixPath := gl.prefixPath
        update := [], delete := gl.delete, atomic := false } }

/-- Sample notification stored under path `b` (used as concrete input). -/
def c3Notif : Notification :=
  { timestamp := 7, prefixPath := { target := "t" }
    update := [{ path := { elem := ["b"] }, val := some 1 }] }

/-- Sample sub-cache whose store errors on path `a` and holds `c3Notif`
under path `b`. -/
def c3Sub : SubCache :=
  { targets := ["t"]
    queryRes := [(("t", ["a"]), .err "boom"), (("t", ["b"]), .ok [c3Notif])] }

/-- Sample registry holding `c3Sub` under subscription `s1`. -/
def c3Cache : GnmiCache := { caches := [("s1", c3Sub)] }

/-- Sample Once-mode read over paths `a` then `b`. -/
def c3Opts : ReadOpts :=
  { subscription := "s1", target := "t"
    paths := [{ elem := ["a"] }, { elem := ["b"] }], mode := .once }

/-- Sample sub-cache with target `t` and no stored data. -/
def c4Sub : SubCache := { targets := ["t"] }

/-- Sample registry for the on-change trace. -/
def c4Cache : GnmiCache := { caches := [("s1", c4Sub)] }

/-- Sample on-change read over two paths with a heartbeat configured. -/
def c4Opts : ReadOpts :=
  { subscription := "s1", target := "t"
    paths := [{ elem := ["a"] }, { elem := ["b"] }]
    mode := .streamOnChange, heartbeatInterval := 5, updatesOnly := true }

/-! ## Theorems -/

/-- C1: for every incoming `SubscribeResponse` update with a non-empty
target and either a common prefix or fully-pathed updates, `Write` strips
every update entry whose value is unset before storing; if the resulting
notification has neither updates nor deletions no store write occurs,
otherwise exactly one write attempt reaches the store, carrying the
stripped notification. -/
theorem write_strips_and_single_attempt
    (gc : GnmiCache) (measName : String) (rsp : Notification)
    (ht : rsp.prefixPath.target ≠ "")
    (hp : rsp.prefixPath.elem ≠ [] ∨ ∀ u ∈ rsp.update, u.path.elem ≠ []) :
    (Write gc measName (.update rsp)).storeWrites =
      if rsp.update.filter (fun u => u.val.isSome) = [] ∧ rsp.delete = [] then []
      else
        [(measName,
          { timestamp := rsp.timestamp, prefixPath := rsp.prefixPath
            update := rsp.update.filter (fun u => u.val.isSome)
            delete := rsp.delete, atomic := rsp.atomic })] := by
  have hguard : ¬(rsp.prefixPath.elem = [] ∧ ∃ u ∈ rsp.update, u.path.elem = []) := by
    rintro ⟨he, u, hu, hpe⟩
    rcases hp with h | h
    · exact h he
    · exact h u hu hpe
  simp only [Write]
  rw [if_neg ht, if_neg hguard]
  split
  · rfl
  · rfl

/-- Concrete check of `write_strips_and_single_attempt`: a notification
with one valued and one unset update loses the unset one and produces
exactly one store-write attempt. -/
theorem write_strips_and_single_attempt_witness :
    (({ prefixPath := { target := "t", elem := ["a"] }
        update := [{ path := { elem := ["b"] }, val := some 1 },
                   { path := { elem := ["c"] }, val := none }] } :
        Notification).prefixPath.target ≠ "") ∧
    (Write {} "s1"
        (.update
          { prefixPath := { target := "t", elem := ["a"] }
            update := [{ path := { elem := ["b"] }, val := some 1 },
                       { path := { elem := ["c"] }, val := none }] })).storeWrites =
      [("s1",
        { prefixPath := { target := "t", elem := ["a"] }
          update := [{ path := { elem := ["b"] }, val := some 1 }] })] := by
  constructor
  · decide
  · have h := write_strips_and_single_attempt {} "s1"
      { prefixPath := { target := "t", elem := ["a"] }
        update := [{ path := { elem := ["b"] }, val := some 1 },
                   { path := { elem := ["c"] }, val := none }] }
      (by decide) (.inl (by decide))
    simpa using h

/-- C5: `Write` is a silent no-op — registry untouched, no store write —
whenever the notification's target is empty, or it has no prefix elements
and some update also has an empty path. -/
theorem write_silent_noop_on_invalid
    (gc : GnmiCache) (measName : String) (rsp : Notification)
    (h : rsp.prefixPath.target = "" ∨
      (rsp.prefixPath.elem = [] ∧ ∃ u ∈ rsp.update, u.path.elem = [])) :
    Write gc measName (.update rsp) = ⟨gc, []⟩ := by
  simp only [Write]
  rcases h with h | h
  · rw [if_pos h]
  · by_cases ht : rsp.prefixPath.target = ""
    · rw [if_pos ht]
    · rw [if_neg ht, if_pos h]

/-- Concrete check of `write_silent_noop_on_invalid`: a prefixless
notification containing a pathless update is dropped without mutating the
registry. -/
theorem write_silent_noop_on_invalid_witness :
    (({ prefixPath := { target := "t" },
        update := [{ path := {}, val := some 1 }] } :
        Notification).prefixPath.elem = [] ∧
      ∃ u ∈ ({ prefixPath := { target := "t" },
               update := [{ path := {}, val := some 1 }] } :
        Notification).update, u.path.elem = []) ∧
    Write { caches := [("s1", { targets := ["t"] })] } "s1"
        (.update { prefixPath := { target := "t" },
                   update := [{ path := {}, val := some 1 }] }) =
      ⟨{ caches := [("s1", { targets := ["t"] })] }, []⟩ := by
  refine ⟨by decide, ?_⟩
  exact write_silent_noop_on_invalid
    { caches := [("s1", { targets := ["t"] })] } "s1"
    { prefixPath := { target := "t" }, update := [{ path := {}, val := some 1 }] }
    (.inr (by decide))

/-- C7: entering on-change mode forces redundancy suppression off
regardless of the flag carried by the request's options, while Sample mode
hands the options to its handler unchanged, inheriting the flag. -/
theorem dispatch_suppression_modes (ro : ReadOpts) :
    (subscribeDispatch { ro with mode := .streamOnChange }).suppressRedundant = false ∧
    subscribeDispatch { ro with mode := .streamSample } = { ro with mode := .streamSample } :=
  ⟨rfl, rfl⟩

/-- C10: with the timestamp-override flag set (and suppression off, as in
a plain Once read), the emitted notification is the clone carrying `now`
as its timestamp and the original field values otherwise, while the value
left in the store's leaf is the original notification with its original
timestamp. -/
theorem override_ts_clone_spec
    (ro : ReadOpts) (name : String) (now : Int) (st : SuppressState) (gl : Notification)
    (h1 : ro.overrideTS = true) (h2 : ro.suppressRedundant = false) :
    (processLeaf ro name now st gl).2 =
      [{ name := name, notif := some { gl with timestamp := now } }] ∧
    (overrideClone gl now).1 = gl ∧
    ((overrideClone gl now).2).timestamp = now ∧
    ((overrideClone gl now).2).prefixPath = gl.prefixPath ∧
    ((overrideClone gl now).2).update = gl.update ∧
    ((overrideClone gl now).2).delete = gl.delete := by
  refine ⟨?_, rfl, rfl, rfl, rfl, rfl⟩
  unfold processLeaf
  rw [if_pos h1, if_pos h2]
  rfl

/-- Concrete check of `override_ts_clone_spec`: the emission carries the
override time 99 while the stored leaf keeps timestamp 5. -/
theorem override_ts_clone_spec_witness :
    (({ overrideTS := true } : ReadOpts).overrideTS = true) ∧
    (processLeaf { overrideTS := true } "s1" 99 []
        { timestamp := 5, prefixPath := { target := "t" } }).2 =
      [{ name := "s1", notif := some { timestamp := 99, prefixPath := { target := "t" } } }] ∧
    (overrideClone { timestamp := 5, prefixPath := { target := "t" } } 99).1.timestamp = 5 := by
  refine ⟨rfl, ?_, ?_⟩
  · exact (override_ts_clone_spec { overrideTS := true } "s1" 99 []
      { timestamp := 5, prefixPath := { target := "t" } } rfl rfl).1
  · exact congrArg Notification.timestamp
      (override_ts_clone_spec { overrideTS := true } "s1" 99 []
        { timestamp := 5, prefixPath := { target := "t" } } rfl rfl).2.1

/-- Looking a key up after a key-replacing insertion. -/
theorem lookupA_insertA {α β : Type} [DecidableEq α] (l : List (α × β)) (k a : α) (v : β) :
    lookupA a (insertA l k v) = if a = k then some v else lookupA a l := by
  induction l with
  | nil =>
    by_cases h : a = k
    · subst h; simp [insertA, lookupA]
    · have h' : ¬k = a := fun hh => h hh.symm
      simp [insertA, lookupA, h, h']
  | cons hd tl ih =>
    by_cases hk : hd.1 = k
    · by_cases h : a = k
      · subst h; simp [insertA, lookupA, hk]
      · have h' : ¬k = a := fun hh => h hh.symm
        have h2 : ¬hd.1 = a := by rw [hk]; exact h'
        simp [insertA, lookupA, hk, h, h', h2]
    · by_cases h : a = k
      · subst h
        simp [insertA, lookupA, hk, ih]
      · have h' : ¬k = a := fun hh => h hh.symm
        simp [insertA, lookupA, hk, h, h', ih]

/-- Behavior of `orD` with no fallback. -/
theorem orD_none {α : Type} (a : Option α) : orD a none = a := by
  cases a <;> rfl

/-- A step that does not emit leaves the state unchanged. -/
theorem suppressStep_skip_state (st : SuppressState) (k : String) (v : Option TypedValue)
    (h : (suppressStep st k v).2 = false) : (suppressStep st k v).1 = st := by
  unfold suppressStep at h ⊢
  by_cases hl : lookupA k st = some v
  · rw [if_pos hl]
  · rw [if_neg hl] at h; simp at h

/-- A step emits exactly when the last sent value for the key is absent or
different. -/
theorem suppressStep_emit_iff (st : SuppressState) (k : String) (v : Option TypedValue) :
    (suppressStep st k v).2 = true ↔ lookupA k st ≠ some v := by
  unfold suppressStep
  by_cases hl : lookupA k st = some v
  · simp [hl]
  · simp [hl]

/-- An emitting step records the value. -/
theorem suppressStep_emit_state (st : SuppressState) (k : String) (v : Option TypedValue)
    (h : (suppressStep st k v).2 = true) : (suppressStep st k v).1 = insertA st k v := by
  unfold suppressStep at h ⊢
  by_cases hl : lookupA k st = some v
  · rw [if_pos hl] at h; simp at h
  · rw [if_neg hl]

/-- The suppression state after a run holds, for every key, the last value
sent for that key during the run, or the prior entry if none was sent. -/
theorem lookupA_suppressRun (us : List (String × Option TypedValue)) :
    ∀ (st : SuppressState) (k : String),
    lookupA k (suppressRun st us).1 = orD (lastVal (emittedVals st us k)) (lookupA k st) := by
  induction us with
  | nil => intro st k; simp [suppressRun, emittedVals, lastVal, orD]
  | cons kv rest ih =>
    intro st k
    simp only [suppressRun, emittedVals]
    by_cases hc : kv.1 = k ∧ (suppressStep st kv.1 kv.2).2 = true
    · rw [if_pos hc]
      rw [ih]
      have hst : lookupA k (suppressStep st kv.1 kv.2).1 = some kv.2 := by
        rw [suppressStep_emit_state st kv.1 kv.2 hc.2, lookupA_insertA]
        rw [if_pos hc.1.symm]
      rw [hst]
      simp only [lastVal]
      cases lastVal (emittedVals (suppressStep st kv.1 kv.2).1 rest k) <;> simp [orD]
    · rw [if_neg hc]
      rw [ih]
      have hst : lookupA k (suppressStep st kv.1 kv.2).1 = lookupA k st := by
        cases hb : (suppressStep st kv.1 kv.2).2 with
        | false => rw [suppressStep_skip_state st kv.1 kv.2 hb]
        | true =>
          have hne : kv.1 ≠ k := fun hh => hc ⟨hh, hb⟩
          rw [suppressStep_emit_state st kv.1 kv.2 hb, lookupA_insertA]
          rw [if_neg (fun hh : k = kv.1 => hne hh.symm)]
      rw [hst]

/-- The emission flag of the update at position `pre.length` is the step
outcome against the state accumulated over `pre`. -/
theorem suppressRun_flag_at (pre : List (String × Option TypedValue)) :
    ∀ (st : SuppressState) (k : String) (v : Option TypedValue)
      (post : List (String × Option TypedValue)),
    ((suppressRun st (pre ++ (k, v) :: post)).2)[pre.length]? =
      some (suppressStep (suppressRun st pre).1 k v).2 := by
  induction pre with
  | nil =>
    intro st k v post
    simp [suppressRun]
  | cons kv rest ih =>
    intro st k v post
    simp only [List.cons_append, suppressRun, List.length_cons, List.getElem?_cons_succ]
    exact ih (suppressStep st kv.1 kv.2).1 k v post

/-- The update loop of the suppress-redundant branch emits exactly the
single-update items of the updates whose `suppressRun` flag is set, in
order, and ends in the `suppressRun` state. -/
theorem processUpdates_eq (name : String) (gl : Notification) :
    ∀ (us : List Update) (st : SuppressState),
    processUpdates name gl st us =
      ((suppressRun st (updKeys gl us)).1,
       ((us.zip (suppressRun st (updKeys gl us)).2).filter (fun x => x.2)).map
         (fun x => updateItemOf name gl x.1)) := by
  intro us
  induction us with
  | nil => intro st; rfl
  | cons u rest ih =>
    intro st
    simp only [processUpdates, updKeys, List.map_cons, suppressRun, List.zip_cons_cons]
    cases hr : (suppressStep st (updKey gl u) u.val).2 with
    | true =>
      simp only [hr, if_true, List.filter_cons]
      rw [ih]
      simp [updKeys, updateItemOf]
    | false =>
      simp only [hr, if_false, List.filter_cons]
      rw [ih]
      simp [updKeys]

/-- C2: in a Once-mode read with redundancy suppression on, (1) an update
is emitted exactly when no value was sent for its fully-qualified key
earlier in the read or the last sent value differs from the new one;
(2) the items emitted for the updates of one notification are exactly the
single-update notifications of the updates whose emission flag is set; and
(3) a notification carrying deletions always additionally emits one
notification holding only the deletions. -/
theorem suppress_emission_iff :
    (∀ (pre : List (String × Option TypedValue)) (k : String) (v : Option TypedValue)
        (post : List (String × Option TypedValue)),
      ((suppressRun [] (pre ++ (k, v) :: post)).2)[pre.length]? = some true ↔
        (emittedVals [] pre k = [] ∨ lastVal (emittedVals [] pre k) ≠ some v)) ∧
    (∀ (name : String) (gl : Notification) (st : SuppressState) (us : List Update),
      processUpdates name gl st us =
        ((suppressRun st (updKeys gl us)).1,
         ((us.zip (suppressRun st (updKeys gl us)).2).filter (fun x => x.2)).map
           (fun x => updateItemOf name gl x.1))) ∧
    (∀ (ro : ReadOpts) (name : String) (now : Int) (st : SuppressState) (gl : Notification),
      ro.suppressRedundant = true → gl.delete ≠ [] →
      (processLeaf ro name now st gl).2 =
        (processUpdates name (if ro.overrideTS then (overrideClone gl now).2 else gl) st
          (if ro.overrideTS then (overrideClone gl now).2 else gl).update).2 ++
        [deleteItemOf name (if ro.overrideTS then (overrideClone gl now).2 else gl)]) := by
  refine ⟨?_, fun name gl st us => processUpdates_eq name gl us st, ?_⟩
  · intro pre k v post
    rw [suppressRun_flag_at pre [] k v post]
    have hstep := suppressStep_emit_iff (suppressRun [] pre).1 k v
    have hlook := lookupA_suppressRun pre [] k
    rw [show lookupA k ([] : SuppressState) = none from rfl, orD_none] at hlook
    constructor
    · intro h
      right
      have hb : (suppressStep (suppressRun [] pre).1 k v).2 = true := Option.some.inj h
      rw [hstep, hlook] at hb
      exact hb
    · intro h
      have hne : lastVal (emittedVals [] pre k) ≠ some v := by
        cases h with
        | inl he => rw [he]; simp [lastVal]
        | inr hn => exact hn
      have hb : (suppressStep (suppressRun [] pre).1 k v).2 = true := by
        rw [hstep, hlook]; exact hne
      rw [hb]
  · intro ro name now st gl hs hd
    simp only [processLeaf]
    rw [if_neg (by simp [hs] : ¬ro.suppressRedundant = false)]
    have hdel : (if ro.overrideTS then (overrideClone gl now).2 else gl).delete = gl.delete := by
      cases h0 : ro.overrideTS <;> simp [overrideClone]
    rw [if_neg (by rw [hdel]; exact hd)]
    simp [deleteItemOf]

/-- Concrete check of `suppress_emission_iff`: a repeated identical value
is suppressed, and a deletion-carrying notification emits its
deletion-only item. -/
theorem suppress_emission_iff_witness :
    ((suppressRun [] [("k", (some 5 : Option TypedValue)), ("k", some 5)]).2[1]? = some true ↔
      (emittedVals [] [("k", (some 5 : Option TypedValue))] "k" = [] ∨
       lastVal (emittedVals [] [("k", (some 5 : Option TypedValue))] "k") ≠ some (some 5))) ∧
    (({ suppressRedundant := true } : ReadOpts).suppressRedundant = true ∧
     ({ timestamp := 3, delete := [{ elem := ["d"] }] } : Notification).delete ≠ [] ∧
     (processLeaf { suppressRedundant := true } "s1" 0 []
        { timestamp := 3, delete := [{ elem := ["d"] }] }).2 =
       [deleteItemOf "s1" { timestamp := 3, delete := [{ elem := ["d"] }] }]) := by
  refine ⟨suppress_emission_iff.1 [("k", some 5)] "k" (some 5) [], rfl, by decide, ?_⟩
  have h := suppress_emission_iff.2.2 { suppressRedundant := true } "s1" 0 []
    { timestamp := 3, delete := [{ elem := ["d"] }] } rfl (by decide)
  simpa using h

/-- Items emitted by the update loop carry the subscription name. -/
theorem processUpdates_name (name : String) (gl : Notification) (us : List Update)
    (st : SuppressState) (it : NotificationItem)
    (hit : it ∈ (processUpdates name gl st us).2) : it.name = name := by
  rw [processUpdates_eq] at hit
  simp only [List.mem_map] at hit
  obtain ⟨x, _, hx⟩ := hit
  rw [← hx]
  rfl

/-- Items emitted for one cached notification carry the subscription
name. -/
theorem processLeaf_name (ro : ReadOpts) (name : String) (now : Int) (st : SuppressState)
    (gl : Notification) (it : NotificationItem)
    (hit : it ∈ (processLeaf ro name now st gl).2) : it.name = name := by
  simp only [processLeaf] at hit
  by_cases hs : ro.suppressRedundant = false
  · rw [if_pos hs] at hit
    simp only [List.mem_singleton] at hit
    rw [hit]
  · rw [if_neg hs] at hit
    by_cases hd : (if ro.overrideTS then (overrideClone gl now).2 else gl).delete = []
    · rw [if_pos hd] at hit
      exact processUpdates_name name _ _ st it hit
    · rw [if_neg hd] at hit
      simp only [List.mem_append, List.mem_singleton] at hit
      cases hit with
      | inl h => exact processUpdates_name name _ _ st it h
      | inr h => rw [h]

/-- Items emitted over a list of cached notifications carry the
subscription name. -/
theorem processLeaves_name (ro : ReadOpts) (name : String) (now : Int)
    (ls : List Notification) :
    ∀ (st : SuppressState) (it : NotificationItem),
    it ∈ (processLeaves ro name now st ls).2 → it.name = name := by
  induction ls with
  | nil => intro st it hit; simp [processLeaves] at hit
  | cons gl rest ih =>
    intro st it hit
    simp only [processLeaves, List.mem_append] at hit
    cases hit with
    | inl h => exact processLeaf_name ro name now st gl it h
    | inr h => exact ih _ it h

/-- Items emitted by one per-subscription goroutine carry that
subscription's name. -/
theorem processSubPathsOnce_name (ro : ReadOpts) (now : Int) (name : String)
    (c : SubCache) (ps : List GPath) :
    ∀ (st : SuppressState) (it : NotificationItem),
    it ∈ (processSubPathsOnce ro now name c st ps).2 → it.name = name := by
  induction ps with
  | nil => intro st it hit; simp [processSubPathsOnce] at hit
  | cons p rest ih =>
    intro st it hit
    simp only [processSubPathsOnce, completePath] at hit
    cases hq : queryStore c ro.target p.elem with
    | err e =>
      rw [hq] at hit
      simp only [List.mem_singleton] at hit
      rw [hit]
    | ok ns =>
      rw [hq] at hit
      simp only [List.mem_append] at hit
      cases hit with
      | inl h => exact processLeaves_name ro name now ns st it h
      | inr h => exact ih _ it h

/-- Every item of the Once fan-out comes from a snapshot cache that
contains the requested target. -/
theorem handleSingleQueryCaches_mem (ro : ReadOpts) (now : Int)
    (cs : List (String × SubCache)) :
    ∀ (st : SuppressState) (it : NotificationItem),
    it ∈ (handleSingleQueryCaches ro now st cs).2 →
    ∃ c, (it.name, c) ∈ cs ∧ c.targets.contains ro.target = true := by
  induction cs with
  | nil => intro st it hit; simp [handleSingleQueryCaches] at hit
  | cons nc rest ih =>
    intro st it hit
    simp only [handleSingleQueryCaches, List.mem_append] at hit
    cases hit with
    | inl h =>
      by_cases hct : nc.2.targets.contains ro.target = true
      · rw [if_pos hct] at h
        have hname := processSubPathsOnce_name ro now nc.1 nc.2 ro.paths st it h
        refine ⟨nc.2, ?_, hct⟩
        rw [hname]
        exact List.mem_cons_self _ _
      · rw [if_neg hct] at h
        simp at h
    | inr h =>
      obtain ⟨c, hc, ht⟩ := ih _ it h
      exact ⟨c, List.mem_cons_of_mem _ hc, ht⟩

/-- C6: a Once-mode read produces items only from the snapshot caches that
contain the requested target; caches without the target contribute nothing
to the output channel. -/
theorem once_only_matching_caches (gc : GnmiCache) (ro : ReadOpts) (now : Int)
    (it : NotificationItem) (hit : it ∈ handleSingleQuery gc ro now) :
    ∃ c, (it.name, c) ∈ getCaches gc [ro.subscription] ∧
      c.targets.contains ro.target = true :=
  handleSingleQueryCaches_mem ro now (getCaches gc [ro.subscription]) ro.lastSent it hit

/-- Concrete check of `once_only_matching_caches`: the sole emitted item
comes from the one cache that holds target `t`. -/
theorem once_only_matching_caches_witness :
    ({ name := "s1", notif := some c3Notif } : NotificationItem) ∈
      handleSingleQuery c3Cache { c3Opts with paths := [{ elem := ["b"] }] } 0 ∧
    ∃ c, (("s1" : String), c) ∈
        getCaches c3Cache [({ c3Opts with paths := [{ elem := ["b"] }] } : ReadOpts).subscription] ∧
      c.targets.contains ({ c3Opts with paths := [{ elem := ["b"] }] } : ReadOpts).target = true := by
  constructor
  · decide
  · exact once_only_matching_caches c3Cache { c3Opts with paths := [{ elem := ["b"] }] } 0
      { name := "s1", notif := some c3Notif } (by decide)

/-- With suppression off the visitor leaves the suppression state
unchanged. -/
theorem processLeaf_state_off (ro : ReadOpts) (name : String) (now : Int)
    (st : SuppressState) (gl : Notification) (h : ro.suppressRedundant = false) :
    (processLeaf ro name now st gl).1 = st := by
  simp only [processLeaf]
  rw [if_pos h]

/-- With suppression off a query's visitor pass leaves the state
unchanged. -/
theorem processLeaves_state_off (ro : ReadOpts) (name : String) (now : Int)
    (ls : List Notification) (h : ro.suppressRedundant = false) :
    ∀ st : SuppressState, (processLeaves ro name now st ls).1 = st := by
  induction ls with
  | nil => intro st; rfl
  | cons gl rest ih =>
    intro st
    simp only [processLeaves]
    rw [ih, processLeaf_state_off ro name now st gl h]

/-- With suppression off a per-subscription goroutine leaves the state
unchanged. -/
theorem processSubPathsOnce_state_off (ro : ReadOpts) (now : Int) (name : String)
    (c : SubCache) (ps : List GPath) (h : ro.suppressRedundant = false) :
    ∀ st : SuppressState, (processSubPathsOnce ro now name c st ps).1 = st := by
  induction ps with
  | nil => intro st; rfl
  | cons p rest ih =>
    intro st
    simp only [processSubPathsOnce, completePath]
    cases hq : queryStore c ro.target p.elem with
    | err e => rfl
    | ok ns =>
      simp only []
      rw [ih, processLeaves_state_off ro name now ns h]

/-- C3 counterexample: under subscription `s1` the store errors on the
first requested path `a` while the second path `b` holds a notification;
the Once pass emits only the tagged error item — the remaining path of the
same subscription is not processed, contradicting the claim that
processing of the remaining requested paths for the same subscription
continues. -/
theorem once_error_aborts_counterexample :
    queryStore c3Sub "t" ["b"] = .ok [c3Notif] ∧
    handleSingleQuery c3Cache c3Opts 0 = [{ name := "s1", err := some "boom" }] ∧
    ({ name := "s1", notif := some c3Notif } : NotificationItem) ∉
      handleSingleQuery c3Cache c3Opts 0 := by
  refine ⟨by decide, by decide, by decide⟩

/-- C3 (amended): a path-completion failure or store query error at one
path is surfaced as exactly one error item tagged with the subscription
name and aborts that subscription's goroutine — the error path's own and
all remaining paths of that subscription are dropped — while, the
suppression state being untouched (suppression off), the emissions of any
other caches in the fan-out are unaffected (the output of a fan-out over
`l1 ++ l2` is the concatenation of the outputs over `l1` and over `l2`
separately). -/
theorem once_error_item_and_abort :
    (∀ (ro : ReadOpts) (now : Int) (name : String) (c : SubCache) (st : SuppressState)
        (p : GPath) (rest : List GPath) (e : String),
      (completePath p = .err e ∨
        (∃ fp, completePath p = .ok fp ∧ queryStore c ro.target fp = .err e)) →
      processSubPathsOnce ro now name c st (p :: rest) =
        (st, [{ name := name, err := some e }])) ∧
    (∀ (ro : ReadOpts) (now : Int) (st : SuppressState)
        (l1 l2 : List (String × SubCache)),
      ro.suppressRedundant = false →
      (handleSingleQueryCaches ro now st (l1 ++ l2)).2 =
        (handleSingleQueryCaches ro now st l1).2 ++
        (handleSingleQueryCaches ro now st l2).2) := by
  constructor
  · intro ro now name c st p rest e h
    rcases h with herr | ⟨fp, hok, hq⟩
    · simp [completePath] at herr
    · have hfp : fp = p.elem := by
        simp only [completePath] at hok
        exact (PathResult.ok.injEq _ _ ▸ hok).symm
      subst hfp
      simp only [processSubPathsOnce, completePath]
      rw [hq]
  · intro ro now st l1 l2 h
    induction l1 generalizing st with
    | nil => simp [handleSingleQueryCaches]
    | cons nc l1' ih =>
      simp only [List.cons_append, handleSingleQueryCaches]
      have hst :
          (if nc.2.targets.contains ro.target then
              processSubPathsOnce ro now nc.1 nc.2 st ro.paths
            else (st, [])).1 = st := by
        by_cases hct : nc.2.targets.contains ro.target = true
        · rw [if_pos hct]
          exact processSubPathsOnce_state_off ro now nc.1 nc.2 ro.paths h st
        · rw [if_neg hct]
      rw [hst]
      simp only [List.append_eq]
      rw [ih st]
      simp [List.append_assoc]

/-- Concrete check of `once_error_item_and_abort`: a store error on the
head path collapses a two-path subscription to one error item, and the
fan-out output splits across a two-cache registry. -/
theorem once_error_item_and_abort_witness :
    (∃ fp, completePath ({ elem := ["a"] } : GPath) = .ok fp ∧
        queryStore c3Sub c3Opts.target fp = .err "boom") ∧
    processSubPathsOnce c3Opts 0 "s1" c3Sub []
        [{ elem := ["a"] }, { elem := ["b"] }] =
      ([], [{ name := "s1", err := some "boom" }]) ∧
    (c3Opts.suppressRedundant = false ∧
      (handleSingleQueryCaches c3Opts 0 [] ([("s1", c3Sub)] ++ [("s2", c4Sub)])).2 =
        (handleSingleQueryCaches c3Opts 0 [] [("s1", c3Sub)]).2 ++
        (handleSingleQueryCaches c3Opts 0 [] [("s2", c4Sub)]).2) := by
  refine ⟨⟨["a"], rfl, by decide⟩, ?_, rfl, ?_⟩
  · exact once_error_item_and_abort.1 c3Opts 0 "s1" c3Sub [] { elem := ["a"] }
      [{ elem := ["b"] }] "boom" (.inr ⟨["a"], rfl, by decide⟩)
  · exact once_error_item_and_abort.2 c3Opts 0 [] [("s1", c3Sub)] [("s2", c4Sub)] rfl

/-- C4 counterexample: in the on-change trace over two paths with a
heartbeat configured, the nested sampled query of the first path runs to
its end (context cancellation) before the second path's change
subscription is registered — the second registration is absent from the
trace up to the first heartbeat-loop end, contradicting the claim that
registration for every requested path proceeds while the heartbeat loop
runs. -/
theorem onchange_heartbeat_counterexample :
    onChangeSubTrace c4Cache c4Opts 0 1 "s1" c4Sub c4Opts.paths =
      [.registered "s1" ["t", "a"], .heartbeatStart "s1", .heartbeatEnd "s1",
       .registered "s1" ["t", "b"], .heartbeatStart "s1", .heartbeatEnd "s1"] ∧
    (OCEvent.registered "s1" ["t", "b"]) ∉
      (onChangeSubTrace c4Cache c4Opts 0 1 "s1" c4Sub c4Opts.paths).takeWhile
        (fun e => e ≠ OCEvent.heartbeatEnd "s1") := by
  exact ⟨by decide, by decide⟩

/-- C4 (amended): with a positive heartbeat interval, each requested path
that is reached without error is first registered with the change matcher
and then the nested Sample-mode read — whose options carry the heartbeat
interval as the sample interval and the same subscription, target and
paths — runs synchronously to completion inside the path loop, so the
events of every later path appear only after the heartbeat loop of the
earlier path has ended; only the first path's registration is live while
its heartbeat loop runs. -/
theorem onchange_heartbeat_sequencing :
    (∀ (gc : GnmiCache) (ro : ReadOpts) (now : Int) (ticks : Nat) (name : String)
        (c : SubCache) (p : GPath) (rest : List GPath) (ns : List Notification),
      ro.heartbeatInterval > 0 →
      (if ro.updatesOnly then QueryResult.ok [] else queryStore c ro.target p.elem) =
        .ok ns →
      onChangeSubTrace gc ro now ticks name c (p :: rest) =
        ns.map (fun gl => .emitted { name := name, notif := some gl }) ++
        [.registered name (ro.target :: p.elem)] ++
        (OCEvent.heartbeatStart name ::
          ((handleSampledQueryS gc (heartbeatOpts ro) now ticks).2.map .emitted) ++
          [.heartbeatEnd name]) ++
        onChangeSubTrace gc ro now ticks name c rest) ∧
    (∀ ro : ReadOpts,
      (heartbeatOpts ro).sampleInterval = ro.heartbeatInterval ∧
      (heartbeatOpts ro).mode = .streamSample ∧
      (heartbeatOpts ro).paths = ro.paths ∧
      (heartbeatOpts ro).target = ro.target ∧
      (heartbeatOpts ro).subscription = ro.subscription) := by
  constructor
  · intro gc ro now ticks name c p rest ns hhb hq
    simp only [onChangeSubTrace, completePath]
    rw [hq, if_pos hhb]
  · intro ro
    exact ⟨rfl, rfl, rfl, rfl, rfl⟩

/-- Concrete check of `onchange_heartbeat_sequencing` on a one-path
on-change read with heartbeat interval 5. -/
theorem onchange_heartbeat_sequencing_witness :
    c4Opts.heartbeatInterval > 0 ∧
    ((if c4Opts.updatesOnly then QueryResult.ok [] else
        queryStore c4Sub c4Opts.target ["a"]) = .ok []) ∧
    onChangeSubTrace c4Cache c4Opts 0 1 "s1" c4Sub [{ elem := ["a"] }] =
      ([] : List Notification).map
        (fun gl => .emitted { name := "s1", notif := some gl }) ++
      [.registered "s1" (c4Opts.target :: ["a"])] ++
      (OCEvent.heartbeatStart "s1" ::
        ((handleSampledQueryS c4Cache (heartbeatOpts c4Opts) 0 1).2.map .emitted) ++
        [.heartbeatEnd "s1"]) ++
      onChangeSubTrace c4Cache c4Opts 0 1 "s1" c4Sub [] := by
  refine ⟨by decide, by decide, ?_⟩
  exact onchange_heartbeat_sequencing.1 c4Cache c4Opts 0 1 "s1" c4Sub
    { elem := ["a"] } [] [] (by decide) (by decide)

/-- Mapping a name onto filtered elements commutes with filtering the
pairs on their second component. -/
theorem filter_map_pair {α : Type} (name : String) (pred : α → Bool) (ns : List α) :
    (ns.filter pred).map (fun n => (name, n)) =
      (ns.map (fun n => (name, n))).filter (fun x => pred x.2) := by
  induction ns with
  | nil => rfl
  | cons n rest ih =>
    simp only [List.filter_cons, List.map_cons]
    cases hp : pred n with
    | true => simp [hp, ih]
    | false => simp [hp, ih]

/-- One cache's contribution to `read` is its unfiltered contribution with
the expiration filter applied. -/
theorem readCacheNotifs_filter (gc : GnmiCache) (target : String) (p : GPath)
    (now : Int) (name : String) (c : SubCache) :
    readCacheNotifs gc target p now name c =
      (readCacheNotifsAll target p name c).filter
        (fun x => ¬(gc.expiration > 0 ∧ x.2.timestamp < now - gc.expiration)) := by
  simp only [readCacheNotifs, readCacheNotifsAll, completePath]
  cases hq : queryStore c target p.elem with
  | err e => rfl
  | ok ns => exact filter_map_pair name _ ns

/-- The fan-out of `read` is the unfiltered fan-out with the expiration
filter applied. -/
theorem readCaches_filter (gc : GnmiCache) (target : String) (p : GPath) (now : Int) :
    ∀ cs : List (String × SubCache),
    readCaches gc target p now cs =
      (readCachesAll target p cs).filter
        (fun x => ¬(gc.expiration > 0 ∧ x.2.timestamp < now - gc.expiration)) := by
  intro cs
  induction cs with
  | nil => rfl
  | cons nc rest ih =>
    simp only [readCaches, readCachesAll, List.filter_append]
    rw [ih, readCacheNotifs_filter]

/-- C8: the synchronous read-everything path returns exactly the queried
notifications that pass the expiration filter: with a positive expiration
window every notification older than the read's start time minus the
window is absent from the result, and with a zero window nothing is
skipped on age grounds. -/
theorem read_expiration_filter_spec (gc : GnmiCache) (sub target : String)
    (p : GPath) (now : Int) :
    read gc sub target p now =
      (readAllPairs gc sub target p).filter
        (fun x => ¬(gc.expiration > 0 ∧ x.2.timestamp < now - gc.expiration)) ∧
    (∀ x ∈ read gc sub target p now,
      gc.expiration > 0 → ¬(x.2.timestamp < now - gc.expiration)) ∧
    (gc.expiration = 0 → read gc sub target p now = readAllPairs gc sub target p) := by
  have h1 : read gc sub target p now =
      (readAllPairs gc sub target p).filter
        (fun x => ¬(gc.expiration > 0 ∧ x.2.timestamp < now - gc.expiration)) := by
    unfold read readAllPairs
    exact readCaches_filter gc target p now _
  refine ⟨h1, ?_, ?_⟩
  · intro x hx hpos
    rw [h1] at hx
    have := (List.mem_filter.mp hx).2
    simp only [decide_eq_true_eq] at this
    exact fun hlt => this ⟨hpos, hlt⟩
  · intro h0
    rw [h1]
    apply List.filter_eq_self.mpr
    intro x _
    simp [h0]

/-- Concrete check of `read_expiration_filter_spec`: with expiration 10
and a read started at 100, a notification stamped 7 is dropped while one
stamped 95 survives. -/
theorem read_expiration_filter_spec_witness :
    (({ caches := [("s1",
        { targets := ["t"]
          queryRes := [(("t", ["b"]),
            .ok [{ timestamp := 7, prefixPath := { target := "t" } },
                 { timestamp := 95, prefixPath := { target := "t" } }])] })]
        expiration := 10 } : GnmiCache).expiration > 0) ∧
    ("s1", ({ timestamp := 7, prefixPath := { target := "t" } } : Notification)) ∈
      readAllPairs
        { caches := [("s1",
            { targets := ["t"]
              queryRes := [(("t", ["b"]),
                .ok [{ timestamp := 7, prefixPath := { target := "t" } },
                     { timestamp := 95, prefixPath := { target := "t" } }])] })]
          expiration := 10 } "s1" "t" { elem := ["b"] } ∧
    read
        { caches := [("s1",
            { targets := ["t"]
              queryRes := [(("t", ["b"]),
                .ok [{ timestamp := 7, prefixPath := { target := "t" } },
                     { timestamp := 95, prefixPath := { target := "t" } }])] })]
          expiration := 10 } "s1" "t" { elem := ["b"] } 100 =
      [("s1", { timestamp := 95, prefixPath := { target := "t" } })] ∧
    (∀ x ∈ read
        { caches := [("s1",
            { targets := ["t"]
              queryRes := [(("t", ["b"]),
                .ok [{ timestamp := 7, prefixPath := { target := "t" } },
                     { timestamp := 95, prefixPath := { target := "t" } }])] })]
          expiration := 10 } "s1" "t" { elem := ["b"] } 100,
      (10 : Int) > 0 → ¬(x.2.timestamp < 100 - 10)) := by
  refine ⟨by decide, by decide, by decide, ?_⟩
  intro x hx
  have h := (read_expiration_filter_spec
    { caches := [("s1",
        { targets := ["t"]
          queryRes := [(("t", ["b"]),
            .ok [{ timestamp := 7, prefixPath := { target := "t" } },
                 { timestamp := 95, prefixPath := { target := "t" } }])] })]
      expiration := 10 } "s1" "t" { elem := ["b"] } 100).2.1 x hx
  exact h

/-- Looking up a name in the restricted-snapshot fold: present exactly
when the name was requested and the registry has it; the accumulator
answers otherwise. -/
theorem lookupA_getCaches_fold (gc : GnmiCache) (n : String) :
    ∀ (names : List String) (acc : List (String × SubCache)),
    lookupA n
        (names.foldl
          (fun acc n =>
            match lookupA n gc.caches with
            | some c => insertA acc n c
            | none => acc)
          acc) =
      if n ∈ names ∧ (lookupA n gc.caches).isSome then lookupA n gc.caches
      else lookupA n acc := by
  intro names
  induction names with
  | nil =>
    intro acc
    simp
  | cons nm rest ih =>
    intro acc
    simp only [List.foldl_cons]
    rw [ih]
    by_cases hmem : n ∈ rest ∧ (lookupA n gc.caches).isSome
    · rw [if_pos hmem, if_pos ⟨List.mem_cons_of_mem nm hmem.1, hmem.2⟩]
    · rw [if_neg hmem]
      cases hq : lookupA nm gc.caches with
      | some c0 =>
        dsimp only
        rw [lookupA_insertA]
        by_cases hn : n = nm
        · subst hn
          rw [if_pos rfl]
          have hsome : (lookupA n gc.caches).isSome := by rw [hq]; rfl
          rw [if_pos ⟨List.mem_cons_self _ _, hsome⟩, hq]
        · rw [if_neg hn]
          have hnc : ¬(n ∈ nm :: rest ∧ (lookupA n gc.caches).isSome) := by
            rintro ⟨hmm, hsome⟩
            rcases List.mem_cons.mp hmm with h1 | h1
            · exact hn h1
            · exact hmem ⟨h1, hsome⟩
          rw [if_neg hnc]
      | none =>
        dsimp only
        have hnc : ¬(n ∈ nm :: rest ∧ (lookupA n gc.caches).isSome) := by
          rintro ⟨hmm, hsome⟩
          rcases List.mem_cons.mp hmm with h1 | h1
          · rw [h1, hq] at hsome
            simp at hsome
          · exact hmem ⟨h1, hsome⟩
        rw [if_neg hnc]

/-- C9: the registry snapshot returns the whole mapping when called with
no names or a single empty name; with any other name list, a lookup in the
snapshot answers exactly for the requested names that are present in the
registry, and nothing else. -/
theorem getCaches_snapshot_spec (gc : GnmiCache) (names : List String) (n : String) :
    getCaches gc [] = gc.caches ∧
    getCaches gc [""] = gc.caches ∧
    (names ≠ [] → names ≠ [""] →
      lookupA n (getCaches gc names) =
        if n ∈ names then lookupA n gc.caches else none) := by
  refine ⟨by simp [getCaches], by simp [getCaches], ?_⟩
  intro h1 h2
  have hcond : ¬(names = [] ∨ names = [""]) := by
    rintro (h | h)
    · exact h1 h
    · exact h2 h
  unfold getCaches
  rw [if_neg hcond]
  rw [lookupA_getCaches_fold]
  by_cases hm : n ∈ names
  · by_cases hs : (lookupA n gc.caches).isSome
    · rw [if_pos ⟨hm, hs⟩, if_pos hm]
    · rw [if_neg (fun hh => hs hh.2), if_pos hm]
      cases hq : lookupA n gc.caches with
      | some c => rw [hq] at hs; simp at hs
      | none => rfl
  · rw [if_neg (fun hh => hm hh.1), if_neg hm]
    rfl

/-- Concrete check of `getCaches_snapshot_spec`: requesting `b` and a
missing name returns exactly the registry's `b` entry. -/
theorem getCaches_snapshot_spec_witness :
    ((["b", "zz"] : List String) ≠ []) ∧ ((["b", "zz"] : List String) ≠ [""]) ∧
    lookupA "b" (getCaches { caches := [("a", c4Sub), ("b", c3Sub)] } ["b", "zz"]) =
      (if "b" ∈ (["b", "zz"] : List String)
        then lookupA "b" ({ caches := [("a", c4Sub), ("b", c3Sub)] } : GnmiCache).caches
        else none) ∧
    lookupA "a" (getCaches { caches := [("a", c4Sub), ("b", c3Sub)] } ["b", "zz"]) = none := by
  refine ⟨by decide, by decide, ?_, by decide⟩
  exact (getCaches_snapshot_spec { caches := [("a", c4Sub), ("b", c3Sub)] }
    ["b", "zz"] "b").2.2 (by decide) (by decide)

end GnmicCache
